import Mathlib

/-!
# Verification of the smart-youtube-agent managers

Shallow embedding of the pure logic of `automation_manager.py`,
`subscription_manager.py`, `video_manager.py`, `ai_brain.py` and
`seo_optimizer.py`.  JSON stores (Python dicts persisted wholesale) are
modelled as association lists `List (String × α)` with dict semantics:
lookup finds the first binding, assignment replaces the binding in place
or appends a fresh one at the end, deletion removes the binding.
Datetimes are modelled as integers (days for the subscription manager,
which only ever adds whole-day timedeltas and compares datetimes);
for the automation manager a moment is a weekday index `0..6` together
with minutes-of-day, matching the weekday arithmetic of
`_calculate_next_upload`.  Float prices and confidences (exact decimal
literals, never computed with) are modelled as rationals.
-/

namespace SYA

/-- Dict lookup: first binding of the key (`d[k]` / `d.get(k)`). -/
def mget {α : Type} : List (String × α) → String → Option α
  | [], _ => none
  | (k, v) :: rest, key => if k = key then some v else mget rest key

/-- Dict assignment `d[k] = v`: replace the first binding in place, or
append a fresh binding at the end (Python dicts preserve insertion order). -/
def mset {α : Type} : List (String × α) → String → α → List (String × α)
  | [], key, v => [(key, v)]
  | (k, w) :: rest, key, v =>
    if k = key then (key, v) :: rest else (k, w) :: mset rest key v

/-- Dict deletion `del d[k]`: remove the binding for the key. -/
def mdel {α : Type} (d : List (String × α)) (key : String) : List (String × α) :=
  d.filter (fun kv => kv.1 ≠ key)

@[simp] theorem mget_mset_self {α : Type} (d : List (String × α)) (k : String) (v : α) :
    mget (mset d k v) k = some v := by
  induction d with
  | nil => simp [mget, mset]
  | cons kv rest ih =>
    obtain ⟨k0, w⟩ := kv
    by_cases h : k0 = k <;> simp [mget, mset, h, ih]

theorem mget_mset_ne {α : Type} (d : List (String × α)) (k k2 : String) (v : α)
    (h : k ≠ k2) : mget (mset d k v) k2 = mget d k2 := by
  induction d with
  | nil => simp [mget, mset, h]
  | cons kv rest ih =>
    obtain ⟨k0, w⟩ := kv
    by_cases h0 : k0 = k
    · subst h0; simp [mget, mset, h]
    · simp only [mset, if_neg h0, mget]
      by_cases h2 : k0 = k2 <;> simp [h2, ih]

@[simp] theorem mget_mdel_self {α : Type} (d : List (String × α)) (k : String) :
    mget (mdel d k) k = none := by
  induction d with
  | nil => simp [mget, mdel]
  | cons kv rest ih =>
    obtain ⟨k0, w⟩ := kv
    by_cases h : k0 = k
    · subst h; simpa [mdel, mget] using ih
    · simpa [mdel, mget, h] using ih

theorem mget_mdel_ne {α : Type} (d : List (String × α)) (k k2 : String)
    (h : k ≠ k2) : mget (mdel d k) k2 = mget d k2 := by
  induction d with
  | nil => simp [mget, mdel]
  | cons kv rest ih =>
    obtain ⟨k0, w⟩ := kv
    by_cases h0 : k0 = k
    · subst h0; simpa [mdel, mget, h] using ih
    · by_cases h2 : k0 = k2
      · subst h2; simp [mdel, List.filter, h0, mget]
      · simpa [mdel, List.filter, h0, h2, mget] using ih

/-! ## SEO optimizer: `SEOOptimizer._optimize_title_basic`

Strings are modelled as lists of characters (`len`, slicing and `in`
act on code points exactly as Python does). -/

/-- Substring test `needle in hay` (Python `in` on strings). -/
def substrIn (n : List Char) : List Char → Bool
  | [] => n.isEmpty
  | c :: t => n.isPrefixOf (c :: t) || substrIn n t

/-- The `power_words` list of `_optimize_title_basic`. -/
def powerWords : List (List Char) :=
  ["Ultimate".data, "Complete".data, "Best".data, "Top".data, "Amazing".data,
   "Incredible".data, "Essential".data, "Must-Watch".data, "Comprehensive".data,
   "Definitive".data]

/-- `SEOOptimizer._optimize_title_basic(title, topic)`.  The `for` loop over
`power_words` returns the first enhanced title of length ≤ 60; when the loop
falls through (or the title has length ≥ 30) the `2024`-suffix / truncation
logic runs.  `topic` is accepted and ignored, exactly as in the source. -/
def optimizeTitleBasic (title _topic : List Char) : List Char :=
  let afterLoop :=
    if ¬ substrIn "2024".data title ∧ title.length < 55 then title ++ " 2024".data
    else title.take 60
  if title.length < 30 then
    match powerWords.find? (fun pw => (pw ++ [' '] ++ title ++ " 2024".data).length ≤ 60) with
    | some pw => pw ++ [' '] ++ title ++ " 2024".data
    | none => afterLoop
  else afterLoop

/-- C10: the fallback title optimizer never returns more than 60 characters. -/
theorem optimizeTitleBasic_length_le (title topic : List Char) :
    (optimizeTitleBasic title topic).length ≤ 60 := by
  unfold optimizeTitleBasic
  set afterLoop :=
    if ¬ substrIn "2024".data title ∧ title.length < 55 then title ++ " 2024".data
    else title.take 60 with hAfter
  have hAfterLen : afterLoop.length ≤ 60 := by
    rw [hAfter]
    by_cases h : ¬ substrIn "2024".data title ∧ title.length < 55
    · simp only [if_pos h, List.length_append]
      have : title.length < 55 := h.2
      simp [String.data]; omega
    · simp only [if_neg h, List.length_take]
      omega
  by_cases hshort : title.length < 30
  · simp only [if_pos hshort]
    cases hf : powerWords.find? (fun pw => (pw ++ [' '] ++ title ++ " 2024".data).length ≤ 60) with
    | none => exact hAfterLen
    | some pw =>
      have := List.find?_some hf
      simpa using this
  · simp only [if_neg hshort]
    exact hAfterLen

/-! ## AI Brain: `AIBrain.analyze_intent` fallback matcher

`analyze_intent` first tries `send_to_openrouter`; when that call raises,
returns a falsy response, or the response fails to parse as JSON, control
falls through to the keyword matcher.  The LLM outcome is modelled as an
`Option IntentResult`: `some r` is a successfully parsed response and
`none` covers every failure mode. -/

structure IntentResult where
  intent : String
  confidence : ℚ
  suggested_actions : List String
deriving DecidableEq

/-- `any(word in message_lower for word in kws)`. -/
def kwMatch (kws : List String) (ml : List Char) : Bool :=
  kws.any (fun k => substrIn k.data ml)

/-- The `if/elif` fallback chain of `analyze_intent` (the `parameters`
fields are all the empty dict and are omitted). -/
def fallbackIntent (message : String) : IntentResult :=
  let ml := message.toLower.data
  if kwMatch ["create", "make", "generate", "new video"] ml then
    ⟨"create_video", 0.8, ["ask_for_topic"]⟩
  else if kwMatch ["script", "modify", "change", "edit"] ml then
    ⟨"modify_script", 0.7, ["show_current_script"]⟩
  else if kwMatch ["status", "progress", "how"] ml then
    ⟨"get_status", 0.9, ["show_status"]⟩
  else if kwMatch ["upload", "youtube", "publish"] ml then
    ⟨"upload_video", 0.8, ["check_ready_to_upload"]⟩
  else
    ⟨"general_chat", 0.5, ["provide_help"]⟩

/-- `AIBrain.analyze_intent`: parsed LLM response when available, fallback
keyword matcher otherwise. -/
def analyzeIntent (llm : Option IntentResult) (message : String) : IntentResult :=
  match llm with
  | some r => r
  | none => fallbackIntent message

/-- Spec-side description: the four keyword groups in their fixed order. -/
def intentGroups : List (List String × IntentResult) :=
  [(["create", "make", "generate", "new video"], ⟨"create_video", 0.8, ["ask_for_topic"]⟩),
   (["script", "modify", "change", "edit"], ⟨"modify_script", 0.7, ["show_current_script"]⟩),
   (["status", "progress", "how"], ⟨"get_status", 0.9, ["show_status"]⟩),
   (["upload", "youtube", "publish"], ⟨"upload_video", 0.8, ["check_ready_to_upload"]⟩)]

/-- Spec-side description: result of the earliest group with a keyword
occurring in the lowercased message, `general_chat` at confidence 0.5
when no group matches. -/
def firstGroupIntent : List (List String × IntentResult) → List Char → IntentResult
  | [], _ => ⟨"general_chat", 0.5, ["provide_help"]⟩
  | (kws, r) :: rest, ml => if kwMatch kws ml then r else firstGroupIntent rest ml

def intentSpec (message : String) : IntentResult :=
  firstGroupIntent intentGroups message.toLower.data

/-- C3: when the LLM call fails, `analyze_intent` returns the intent of the
earliest keyword group (in the fixed order create_video, modify_script,
get_status, upload_video) with a keyword occurring as a substring of the
lowercased message, and `general_chat` with confidence 0.5 otherwise. -/
theorem analyzeIntent_fallback_eq_spec (message : String) :
    analyzeIntent none message = intentSpec message := by
  simp only [analyzeIntent, intentSpec, intentGroups, firstGroupIntent, fallbackIntent]

/-! ## Automation manager: `_calculate_next_upload` and `save_user_settings`

The current moment is a weekday index `curDay` (0 = monday, as in the
`days_of_week` list) together with `nowTime` minutes after midnight;
`upload_time` ("HH:MM") is likewise minutes after midnight.  The returned
ISO datetime `now + days_ahead` at `upload_time` is represented by the
pair `(days_ahead, upload_time)`. -/

def daysOfWeek : List String :=
  ["monday", "tuesday", "wednesday", "thursday", "friday", "saturday", "sunday"]

/-- `days_of_week.index(day)` (total here; every call site guards
membership, a failed lookup raising `ValueError` in the source). -/
def dayIndex (d : String) : Nat := daysOfWeek.indexOf d

/-- The `for day in upload_days` loop of `_calculate_next_upload`: scan the
configured days in list order, raising (`ValueError` from `.index`,
modelled as `.error ()`) at the first invalid name, and stopping at the
first day whose index strictly exceeds the current weekday index. -/
def findNextDay : List String → Nat → Except Unit (Option String)
  | [], _ => .ok none
  | d :: rest, cur =>
    if d ∈ daysOfWeek then
      if cur < dayIndex d then .ok (some d) else findNextDay rest cur
    else .error ()

/-- `AutomationManager._calculate_next_upload`.  Any exception inside the
`try` (an invalid weekday name) yields `None`; otherwise the result is the
days-ahead/time-of-day pair of the computed ISO datetime. -/
def calculateNextUpload (uploadDays : List String) (uploadTime curDay nowTime : Nat) :
    Option (Nat × Nat) :=
  match uploadDays with
  | [] => none
  | d0 :: _ =>
    match findNextDay uploadDays curDay with
    | .error _ => none
    | .ok r =>
      let nextDay := r.getD d0
      if nextDay ∈ daysOfWeek then
        let target : Int := dayIndex nextDay
        let d1 : Nat := ((target - curDay) % 7).toNat
        let daysAhead : Nat := if d1 = 0 ∧ uploadTime ≤ nowTime then 7 else d1
        some (daysAhead, uploadTime)
      else none

/-- Spec-side: `d` days ahead of the current moment, at `uploadTime`
minutes, is an occurrence of a configured upload day lying strictly in the
future. -/
def isFutureUploadSlot (uploadDays : List String) (uploadTime curDay nowTime d : Nat) : Prop :=
  (∃ day ∈ uploadDays, dayIndex day = (curDay + d) % 7) ∧ (0 < d ∨ nowTime < uploadTime)

theorem findNextDay_ok_of_valid (l : List String) (cur : Nat)
    (hv : ∀ day ∈ l, day ∈ daysOfWeek) : ∃ r, findNextDay l cur = .ok r := by
  induction l with
  | nil => exact ⟨none, rfl⟩
  | cons d rest ih =>
    have hd : d ∈ daysOfWeek := hv d (by simp)
    by_cases hlt : cur < dayIndex d
    · exact ⟨some d, by simp [findNextDay, hd, hlt]⟩
    · obtain ⟨r, hr⟩ := ih (fun day hday => hv day (by simp [hday]))
      exact ⟨r, by simp [findNextDay, hd, hlt, hr]⟩

theorem findNextDay_some (l : List String) (cur : Nat) (day : String)
    (h : findNextDay l cur = .ok (some day)) : day ∈ l ∧ cur < dayIndex day := by
  induction l with
  | nil => simp [findNextDay] at h
  | cons d rest ih =>
    by_cases hd : d ∈ daysOfWeek
    · by_cases hlt : cur < dayIndex d
      · simp [findNextDay, hd, hlt] at h
        exact ⟨by simp [h], h ▸ hlt⟩
      · simp only [findNextDay, if_pos hd, if_neg hlt] at h
        obtain ⟨hm, hi⟩ := ih h
        exact ⟨by simp [hm], hi⟩
    · simp [findNextDay, hd] at h

theorem findNextDay_none (l : List String) (cur : Nat)
    (h : findNextDay l cur = .ok none) : ∀ day ∈ l, ¬ cur < dayIndex day := by
  induction l with
  | nil => simp
  | cons d rest ih =>
    by_cases hd : d ∈ daysOfWeek
    · by_cases hlt : cur < dayIndex d
      · simp [findNextDay, hd, hlt] at h
      · simp only [findNextDay, if_pos hd, if_neg hlt] at h
        intro day hday
        rcases List.mem_cons.mp hday with rfl | hmem
        · exact hlt
        · exact ih h day hmem
    · simp [findNextDay, hd] at h

theorem dayIndex_lt_seven (d : String) (h : d ∈ daysOfWeek) : dayIndex d < 7 := by
  fin_cases h <;> decide

/-- C1 (amended): on a non-empty list of valid weekday names the result is
a strictly-future occurrence of a configured day at the configured time. -/
theorem calculateNextUpload_future_slot (uploadDays : List String)
    (uploadTime curDay nowTime : Nat) (hne : uploadDays ≠ [])
    (hv : ∀ day ∈ uploadDays, day ∈ daysOfWeek) (hcur : curDay < 7) :
    ∃ d, calculateNextUpload uploadDays uploadTime curDay nowTime = some (d, uploadTime) ∧
      isFutureUploadSlot uploadDays uploadTime curDay nowTime d := by
  obtain ⟨d0, rest, rfl⟩ : ∃ d0 rest, uploadDays = d0 :: rest := by
    cases uploadDays with
    | nil => exact absurd rfl hne
    | cons a l => exact ⟨a, l, rfl⟩
  obtain ⟨r, hr⟩ := findNextDay_ok_of_valid (d0 :: rest) curDay hv
  cases r with
  | some day =>
    obtain ⟨hmem, hlt⟩ := findNextDay_some _ _ _ hr
    have hday7 : dayIndex day < 7 := dayIndex_lt_seven day (hv day hmem)
    have hdw : day ∈ daysOfWeek := hv day hmem
    refine ⟨dayIndex day - curDay, ?_, ⟨day, hmem, ?_⟩, Or.inl (by omega)⟩
    · simp only [calculateNextUpload, hr, Option.getD_some, if_pos hdw]
      have h1 : (((dayIndex day : Int) - curDay) % 7).toNat = dayIndex day - curDay := by
        omega
      rw [h1]
      have h2 : ¬ (dayIndex day - curDay = 0 ∧ uploadTime ≤ nowTime) := by
        intro hc; omega
      simp [h2]
    · omega
  | none =>
    have hall := findNextDay_none _ _ hr
    have hd0 : d0 ∈ daysOfWeek := hv d0 (by simp)
    have hd07 : dayIndex d0 < 7 := dayIndex_lt_seven d0 hd0
    have hd0le : ¬ curDay < dayIndex d0 := hall d0 (by simp)
    by_cases heq : dayIndex d0 = curDay
    · by_cases htime : uploadTime ≤ nowTime
      · refine ⟨7, ?_, ⟨d0, by simp, by omega⟩, Or.inl (by omega)⟩
        simp only [calculateNextUpload, hr, Option.getD_none, if_pos hd0]
        have h1 : (((dayIndex d0 : Int) - curDay) % 7).toNat = 0 := by omega
        rw [h1]
        simp [htime]
      · refine ⟨0, ?_, ⟨d0, by simp, by omega⟩, Or.inr (by omega)⟩
        simp only [calculateNextUpload, hr, Option.getD_none, if_pos hd0]
        have h1 : (((dayIndex d0 : Int) - curDay) % 7).toNat = 0 := by omega
        rw [h1]
        simp [htime]
    · have hstrict : dayIndex d0 < curDay := by omega
      refine ⟨dayIndex d0 + 7 - curDay, ?_, ⟨d0, by simp, by omega⟩, Or.inl (by omega)⟩
      simp only [calculateNextUpload, hr, Option.getD_none, if_pos hd0]
      have h1 : (((dayIndex d0 : Int) - curDay) % 7).toNat = dayIndex d0 + 7 - curDay := by
        omega
      rw [h1]
      have h2 : ¬ (dayIndex d0 + 7 - curDay = 0 ∧ uploadTime ≤ nowTime) := by
        intro hc; omega
      simp [h2]

theorem calculateNextUpload_future_slot_witness :
    ∃ d, calculateNextUpload ["monday"] 540 2 0 = some (d, 540) ∧
      isFutureUploadSlot ["monday"] 540 2 0 d :=
  calculateNextUpload_future_slot ["monday"] 540 2 0 (by decide)
    (by intro day hday; fin_cases hday; decide) (by decide)

/-- C1 (counterexample): with upload days wednesday and friday, on a
wednesday at 08:00 with upload time 09:00, the code returns the friday slot
(2 days ahead) although wednesday 09:00 today (0 days ahead) is an earlier
strictly-future occurrence of a configured day — the result is not the
earliest such occurrence. -/
theorem calculateNextUpload_not_earliest :
    calculateNextUpload ["wednesday", "friday"] 540 2 480 = some (2, 540) ∧
      isFutureUploadSlot ["wednesday", "friday"] 540 2 480 0 ∧ 0 < 2 := by
  exact ⟨by decide, ⟨⟨"wednesday", by decide, by decide⟩, Or.inr (by decide)⟩, by decide⟩

/-! ### `save_user_settings`

`fastapi.HTTPException` is an `Exception`, so the validation errors raised
inside the `try` block are caught by the trailing broad
`except Exception` and re-raised as a generic 500.  Manager operations are
modelled as state transformers returning the (possibly updated) store next
to an `Except` outcome; an exception leaves the store at the point it was
raised. -/

structure HTTPError where
  status : Nat
  detail : String
deriving DecidableEq

/-- One user's stored automation-settings entry. -/
structure UserAutoSettings where
  enabled : Bool
  niche : String
  frequency : String
  upload_days : List String
  upload_time : Nat
  last_upload : Option Int
  next_upload : Option (Nat × Nat)
deriving DecidableEq

/-- Input dict for `save_user_settings`; absent keys are `none`. -/
structure AutoSettingsInput where
  enabled : Option Bool
  niche : Option String
  frequency : Option String
  upload_days : Option (List String)
  upload_time : Option Nat
deriving DecidableEq

/-- Python truthiness of `settings.get("niche")`. -/
def truthyStr : Option String → Bool
  | none => false
  | some s => !s.isEmpty

/-- Python truthiness of `settings.get("upload_days")`. -/
def truthyList : Option (List String) → Bool
  | none => false
  | some l => !l.isEmpty

/-- The `try:` body of `save_user_settings`: validation raises HTTP 400,
then the entry is rebuilt (with `last_upload = None` and a freshly
computed `next_upload`) and stored.  `_save_settings` and
`_schedule_user_job` swallow their own exceptions and never raise. -/
def saveUserSettingsBody (store : List (String × UserAutoSettings)) (uid : String)
    (inp : AutoSettingsInput) (curDay nowTime : Nat) :
    List (String × UserAutoSettings) × Except HTTPError UserAutoSettings :=
  if ¬ truthyStr inp.niche then
    (store, .error ⟨400, "Video niche is required"⟩)
  else if ¬ truthyList inp.upload_days then
    (store, .error ⟨400, "At least one upload day is required"⟩)
  else
    let entry : UserAutoSettings :=
      { enabled := inp.enabled.getD true
        niche := inp.niche.getD ""
        frequency := inp.frequency.getD "weekly"
        upload_days := inp.upload_days.getD []
        upload_time := inp.upload_time.getD 540
        last_upload := none
        next_upload :=
          calculateNextUpload (inp.upload_days.getD []) (inp.upload_time.getD 540)
            curDay nowTime }
    (mset store uid entry, .ok entry)

/-- `AutomationManager.save_user_settings`: the broad `except Exception`
turns every raised error — the validation `HTTPException(400)`s included —
into `HTTPException(500, "Failed to save automation settings")`. -/
def saveUserSettings (store : List (String × UserAutoSettings)) (uid : String)
    (inp : AutoSettingsInput) (curDay nowTime : Nat) :
    List (String × UserAutoSettings) × Except HTTPError UserAutoSettings :=
  match saveUserSettingsBody store uid inp curDay nowTime with
  | (st, .ok e) => (st, .ok e)
  | (st, .error _) => (st, .error ⟨500, "Failed to save automation settings"⟩)

/-- C4 (counterexample): saving settings with an empty niche raises status
500, not 400 — the inner `HTTPException(400)` is swallowed by the broad
`except Exception` and replaced by the generic 500. -/
theorem saveUserSettings_500_counterexample :
    (saveUserSettings [] "u1" ⟨none, some "", none, some ["monday"], none⟩ 0 0).2 =
      .error ⟨500, "Failed to save automation settings"⟩ ∧ (500 : Nat) ≠ 400 := by
  exact ⟨rfl, by decide⟩

/-- C4 (amended): on a missing/empty niche or missing/empty upload-day
list, `save_user_settings` raises an HTTP error with status code 500 and
leaves the stored settings unchanged. -/
theorem saveUserSettings_invalid (store : List (String × UserAutoSettings))
    (uid : String) (inp : AutoSettingsInput) (curDay nowTime : Nat)
    (h : truthyStr inp.niche = false ∨ truthyList inp.upload_days = false) :
    saveUserSettings store uid inp curDay nowTime =
      (store, .error ⟨500, "Failed to save automation settings"⟩) := by
  unfold saveUserSettings saveUserSettingsBody
  rcases h with h | h
  · simp [h]
  · by_cases hn : truthyStr inp.niche = false
    · simp [hn]
    · simp [eq_true_of_ne_false hn, h]

theorem saveUserSettings_invalid_witness :
    saveUserSettings [] "u2" ⟨none, some "tech", none, some [], none⟩ 3 100 =
      ([], .error ⟨500, "Failed to save automation settings"⟩) :=
  saveUserSettings_invalid [] "u2" ⟨none, some "tech", none, some [], none⟩ 3 100
    (Or.inr (by decide))

/-! ## Subscription manager

Datetimes are integer days (the manager only adds whole-day timedeltas and
compares datetimes; ISO serialisation is order-preserving).  Prices are
rationals (exact decimal literals, never computed with).  The two JSON
stores `subscriptions.json` and `billing.json` form the manager state;
`invoice_id` (`secrets.token_hex`) is passed in as an oracle. -/

structure SubscriptionTier where
  name : String
  price_monthly : ℚ
  price_yearly : ℚ
  video_limit : Int
  features : List String
  max_team_members : Int
  priority_support : Bool
  custom_branding : Bool
  api_access : Bool
deriving DecidableEq

/-- The fixed `self.tiers` dict. -/
def tiersList : List (String × SubscriptionTier) :=
  [("Free", ⟨"Free", 0, 0, 3,
      ["Basic video creation", "YouTube upload", "Email support"], 1, false, false, false⟩),
   ("Starter", ⟨"Starter", 29, 290, 20,
      ["Advanced video creation", "YouTube upload", "Priority support", "Custom thumbnails"],
      3, true, false, false⟩),
   ("Professional", ⟨"Professional", 79, 790, 100,
      ["Unlimited video creation", "YouTube upload", "Priority support", "Custom branding",
       "API access"], 10, true, true, true⟩),
   ("Enterprise", ⟨"Enterprise", 199, 1990, -1,
      ["Everything in Professional", "Dedicated support", "Custom integrations",
       "White-label solution"], -1, true, true, true⟩)]

structure Subscription where
  user_id : String
  tier : String
  status : String
  start_date : Int
  end_date : Int
  billing_cycle : String
  payment_method : Option String
  auto_renew : Bool
  trial_ends : Option Int
deriving DecidableEq

structure BillingHistory where
  user_id : String
  invoice_id : String
  amount : ℚ
  currency : String
  status : String
  date : Int
  description : String
deriving DecidableEq

structure UsageMetrics where
  user_id : String
  month : String
  videos_created : Int
  videos_uploaded : Int
  api_calls : Int
  storage_used : Int
  team_members : Int
deriving DecidableEq

/-- The persisted state: `subscriptions.json` and `billing.json`. -/
structure SubState where
  subs : List (String × Subscription)
  billing : List (String × List BillingHistory)
deriving DecidableEq

/-- `SubscriptionManager.create_billing_record`: HTTP 400 on an unknown
tier, otherwise a `paid` record at the cycle's price is appended to the
user's billing history (created empty when absent). -/
def createBillingRecord (st : SubState) (now : Int) (inv : String)
    (uid tier cycle : String) : SubState × Except HTTPError BillingHistory :=
  match mget tiersList tier with
  | none => (st, .error ⟨400, "Invalid tier"⟩)
  | some ti =>
    let amount := if cycle = "yearly" then ti.price_yearly else ti.price_monthly
    let rec0 : BillingHistory :=
      ⟨uid, inv, amount, "USD", "paid", now,
        tier ++ " subscription - " ++ cycle ++ " billing"⟩
    ({ st with billing := mset st.billing uid (((mget st.billing uid).getD []) ++ [rec0]) },
     .ok rec0)

/-- `SubscriptionManager.check_subscription_status`. -/
def checkSubscriptionStatus (st : SubState) (now : Int) (inv : String) (uid : String) :
    SubState × Except HTTPError String :=
  match mget st.subs uid with
  | none => (st, .ok "no_subscription")
  | some sub =>
    if sub.status = "trial" ∧ sub.trial_ends.isSome then
      if now > sub.trial_ends.getD 0 then
        let sub2 := { sub with status := "expired", tier := "Free", end_date := now + 30 }
        ({ st with subs := mset st.subs uid sub2 }, .ok "expired")
      else (st, .ok sub.status)
    else if sub.status = "active" ∧ now > sub.end_date then
      if sub.auto_renew then
        let newEnd := sub.end_date + (if sub.billing_cycle = "yearly" then 365 else 30)
        let sub2 := { sub with end_date := newEnd }
        let st1 := { st with subs := mset st.subs uid sub2 }
        match createBillingRecord st1 now inv uid sub.tier sub.billing_cycle with
        | (st2, .ok _) => (st2, .ok sub2.status)
        | (st2, .error e) => (st2, .error e)
      else
        let sub2 := { sub with status := "expired" }
        ({ st with subs := mset st.subs uid sub2 }, .ok "expired")
    else (st, .ok sub.status)

/-- `SubscriptionManager.upgrade_subscription`. -/
def upgradeSubscription (st : SubState) (now : Int) (inv : String)
    (uid tier cycle : String) : SubState × Except HTTPError Subscription :=
  if (mget tiersList tier).isNone then
    (st, .error ⟨400, "Invalid subscription tier"⟩)
  else
    let endDate := now + (if cycle = "yearly" then 365 else 30)
    let sub : Subscription := ⟨uid, tier, "active", now, endDate, cycle, none, true, none⟩
    let st1 := { st with subs := mset st.subs uid sub }
    match createBillingRecord st1 now inv uid tier cycle with
    | (st2, .ok _) => (st2, .ok sub)
    | (st2, .error e) => (st2, .error e)

/-- `SubscriptionManager.cancel_subscription`. -/
def cancelSubscription (st : SubState) (uid : String) :
    SubState × Except HTTPError Subscription :=
  match mget st.subs uid with
  | none => (st, .error ⟨404, "Subscription not found"⟩)
  | some sub =>
    let sub2 := { sub with status := "cancelled", auto_renew := false }
    ({ st with subs := mset st.subs uid sub2 }, .ok sub2)

/-- `usage.videos_created if usage else 0` over the nested usage store. -/
def videosCreatedThisMonth (usage : List (String × List (String × UsageMetrics)))
    (uid month : String) : Int :=
  match mget usage uid with
  | none => 0
  | some byMonth =>
    match mget byMonth month with
    | none => 0
    | some m => m.videos_created

/-- `SubscriptionManager.check_video_limit`. -/
def checkVideoLimit (subs : List (String × Subscription))
    (usage : List (String × List (String × UsageMetrics)))
    (curMonth uid : String) : Bool :=
  match mget subs uid with
  | none => false
  | some sub =>
    match mget tiersList sub.tier with
    | none => false
    | some ti =>
      if ti.video_limit = -1 then true
      else videosCreatedThisMonth usage uid curMonth < ti.video_limit

/-- C2: an active auto-renewing subscription past its end date is extended
by exactly 365 (yearly) or 30 (otherwise) days from the previous end date,
exactly one `paid` billing record at the tier's yearly/monthly price is
appended for the user, and `"active"` is returned; without auto-renew the
status becomes (and is returned as) `"expired"` with no billing append. -/
theorem checkSubscriptionStatus_renewal (st : SubState) (now : Int) (inv uid : String)
    (sub : Subscription) (hsub : mget st.subs uid = some sub)
    (hst : sub.status = "active") (hend : sub.end_date < now) :
    (sub.auto_renew = true → ∀ ti, mget tiersList sub.tier = some ti →
      checkSubscriptionStatus st now inv uid =
        ({ subs := mset st.subs uid
             { sub with end_date :=
                 sub.end_date + (if sub.billing_cycle = "yearly" then 365 else 30) },
           billing := mset st.billing uid (((mget st.billing uid).getD []) ++
             [⟨uid, inv,
               (if sub.billing_cycle = "yearly" then ti.price_yearly else ti.price_monthly),
               "USD", "paid", now,
               sub.tier ++ " subscription - " ++ sub.billing_cycle ++ " billing"⟩]) },
         .ok "active")) ∧
    (sub.auto_renew = false →
      checkSubscriptionStatus st now inv uid =
        ({ st with subs := mset st.subs uid { sub with status := "expired" } },
         .ok "expired")) := by
  have htrial : ¬ (sub.status = "trial" ∧ sub.trial_ends.isSome) := by
    rw [hst]; rintro ⟨h, -⟩; exact absurd h (by decide)
  have hactive : sub.status = "active" ∧ now > sub.end_date := ⟨hst, hend⟩
  constructor
  · intro hrenew ti hti
    simp only [checkSubscriptionStatus, hsub, hrenew, createBillingRecord, hti, hst]
    rw [if_neg (fun hc => absurd hc.1 (by decide)), if_pos ⟨trivial, hend⟩, if_pos trivial]
  · intro hrenew
    simp only [checkSubscriptionStatus, hsub, if_neg htrial, if_pos hactive, hrenew,
      Bool.false_eq_true, if_false]

theorem checkSubscriptionStatus_renewal_witness :
    (checkSubscriptionStatus ⟨[("u", ⟨"u", "Starter", "active", 0, 10, "monthly",
        none, true, none⟩)], []⟩ 20 "inv1" "u").2 = .ok "active" := by
  have h := (checkSubscriptionStatus_renewal
    ⟨[("u", ⟨"u", "Starter", "active", 0, 10, "monthly", none, true, none⟩)], []⟩
    20 "inv1" "u" ⟨"u", "Starter", "active", 0, 10, "monthly", none, true, none⟩
    rfl rfl (by decide)).1 rfl
    ⟨"Starter", 29, 290, 20,
      ["Advanced video creation", "YouTube upload", "Priority support", "Custom thumbnails"],
      3, true, false, false⟩ rfl
  rw [h]

/-- `createBillingRecord` never touches the subscriptions store. -/
theorem createBillingRecord_subs_eq (st : SubState) (now : Int) (inv uid tier cycle : String) :
    (createBillingRecord st now inv uid tier cycle).1.subs = st.subs := by
  cases h : mget tiersList tier <;> simp [createBillingRecord, h]

/-- C7: upgrading one user's subscription and cancelling one user's
subscription leave every other user's stored subscription unchanged, even
though both mutations rewrite the whole store. -/
theorem subscriptionOps_frame (st : SubState) (now : Int) (inv u tier cycle v : String)
    (huv : u ≠ v) :
    mget (upgradeSubscription st now inv u tier cycle).1.subs v = mget st.subs v ∧
    mget (cancelSubscription st u).1.subs v = mget st.subs v := by
  constructor
  · unfold upgradeSubscription
    by_cases h : (mget tiersList tier).isNone
    · simp [h]
    · simp only [h, Bool.false_eq_true, if_false]
      rcases hcb : createBillingRecord
          { st with subs := mset st.subs u ⟨u, tier, "active", now,
              now + (if cycle = "yearly" then 365 else 30), cycle, none, true, none⟩ }
          now inv u tier cycle with ⟨st2, r⟩
      have hsubs := createBillingRecord_subs_eq
        { st with subs := mset st.subs u ⟨u, tier, "active", now,
            now + (if cycle = "yearly" then 365 else 30), cycle, none, true, none⟩ }
        now inv u tier cycle
      rw [hcb] at hsubs
      cases r <;> simp only [] <;> rw [hsubs] <;> exact mget_mset_ne _ _ _ _ huv
  · unfold cancelSubscription
    cases h : mget st.subs u with
    | none => simp
    | some sub => simpa using mget_mset_ne _ _ _ _ huv

theorem subscriptionOps_frame_witness :
    mget (upgradeSubscription ⟨[("v", ⟨"v", "Free", "trial", 0, 14, "monthly",
        none, true, some 14⟩)], []⟩ 0 "inv2" "u" "Starter" "monthly").1.subs "v" =
      mget [("v", (⟨"v", "Free", "trial", 0, 14, "monthly", none, true, some 14⟩ :
        Subscription))] "v" ∧
    mget (cancelSubscription ⟨[("v", ⟨"v", "Free", "trial", 0, 14, "monthly",
        none, true, some 14⟩)], []⟩ "u").1.subs "v" =
      mget [("v", (⟨"v", "Free", "trial", 0, 14, "monthly", none, true, some 14⟩ :
        Subscription))] "v" :=
  subscriptionOps_frame ⟨[("v", ⟨"v", "Free", "trial", 0, 14, "monthly", none, true,
    some 14⟩)], []⟩ 0 "inv2" "u" "Starter" "monthly" "v" (by decide)

/-- C8: `check_video_limit` returns `True` exactly when the user has a
stored subscription whose tier is known and either the tier's limit is -1
(unlimited) or the user's current-month `videos_created` count (0 when no
usage record exists) is strictly below the limit. -/
theorem checkVideoLimit_iff (subs : List (String × Subscription))
    (usage : List (String × List (String × UsageMetrics))) (curMonth uid : String) :
    checkVideoLimit subs usage curMonth uid = true ↔
      ∃ sub ti, mget subs uid = some sub ∧ mget tiersList sub.tier = some ti ∧
        (ti.video_limit = -1 ∨ videosCreatedThisMonth usage uid curMonth < ti.video_limit) := by
  unfold checkVideoLimit
  cases hsub : mget subs uid with
  | none => simp
  | some sub =>
    cases hti : mget tiersList sub.tier with
    | none => simp [hti]
    | some ti =>
      by_cases hlim : ti.video_limit = -1
      · simp [hti, hlim]
      · simp only [hti, if_neg hlim, decide_eq_true_eq]
        constructor
        · intro h; exact ⟨sub, ti, rfl, hti, Or.inr h⟩
        · rintro ⟨sub2, ti2, hs2, ht2, h⟩
          obtain rfl : sub = sub2 := Option.some_inj.mp hs2
          rw [hti] at ht2
          obtain rfl : ti = ti2 := Option.some_inj.mp ht2
          rcases h with h | h
          · exact absurd h hlim
          · exact h

/-! ## Video manager: `process_video`, `mark_video_failed`, `delete_video`

`process_video` loads a snapshot of `videos.json`, mutates its record in
place and re-saves the *snapshot* after every stage, while each stage
helper re-loads the current file, adds its own path field and saves.  Each
`save_videos` persists the whole store; the trace below records the
processed record's `progress` field after each save.  A stage raising is
driven by an oracle `Nat → Option String` giving the failing stage's
exception message; `await`ed sleeps and the `updated_at` timestamps carry
no store information and are not modelled. -/

structure VideoRecord where
  user_id : String
  status : String
  progress : Nat
  title : String
  description : String
  youtube_id : Option String
  youtube_url : Option String
  error_message : Option String
  script_path : Option String
  audio_path : Option String
  video_path : Option String
  thumbnail_path : Option String
  local_path : Option String
deriving DecidableEq

/-- The path field written by stage `i` of the pipeline (the dummy file
each stage drops, recorded on the reloaded store). -/
def stageWrite (i : Nat) (vid : String) (r : VideoRecord) : VideoRecord :=
  match i with
  | 0 => { r with script_path := some ("videos/temp/" ++ vid ++ "_script.txt") }
  | 1 => { r with audio_path := some ("videos/temp/" ++ vid ++ "_audio.wav") }
  | 2 => { r with video_path := some ("videos/temp/" ++ vid ++ "_content.mp4") }
  | 3 => { r with thumbnail_path := some ("videos/thumbnails/" ++ vid ++ "_thumb.jpg") }
  | _ => { r with local_path := some ("videos/completed/" ++ vid ++ "_final.mp4") }

/-- A stage helper's own load / update / save round-trip
(`generate_script` … `finalize_video`): the record is present whenever the
pipeline calls this, so the `none` branch is unreachable there. -/
def runStageSave (st : List (String × VideoRecord)) (vid : String) (i : Nat) :
    List (String × VideoRecord) :=
  match mget st vid with
  | none => st
  | some r => mset st vid (stageWrite i vid r)

/-- `VideoManager.mark_video_failed`. -/
def markVideoFailed (st : List (String × VideoRecord)) (vid msg : String) :
    List (String × VideoRecord) :=
  match mget st vid with
  | none => st
  | some r => mset st vid { r with status := "failed", error_message := some msg }

/-- The processed record's persisted progress (0 if absent, which never
occurs on the traced saves). -/
def progAt (st : List (String × VideoRecord)) (vid : String) : Nat :=
  ((mget st vid).map (fun r => r.progress)).getD 0

structure RunResult where
  store : List (String × VideoRecord)
  trace : List Nat
deriving DecidableEq

/-- `VideoManager.process_video`: the five stages in source order, the
snapshot re-saved with the next progress milestone after each stage, and
the `except` handler delegating to `mark_video_failed`.  `oracle i = some
msg` means stage `i` raises an exception with message `msg` (the claims
only consult the first failing stage). -/
def processVideo (store0 : List (String × VideoRecord)) (vid : String)
    (oracle : Nat → Option String) : RunResult :=
  match mget store0 vid with
  | none => ⟨store0, []⟩
  | some v0 =>
    let v1 := { v0 with status := "processing", progress := 10 }
    let s1 := mset store0 vid v1
    let t1 := [progAt s1 vid]
    match oracle 0 with
    | some msg => let sf := markVideoFailed s1 vid msg; ⟨sf, t1 ++ [progAt sf vid]⟩
    | none =>
      let s2 := runStageSave s1 vid 0
      let v2 := { v1 with progress := 30 }
      let s3 := mset store0 vid v2
      let t3 := t1 ++ [progAt s2 vid, progAt s3 vid]
      match oracle 1 with
      | some msg => let sf := markVideoFailed s3 vid msg; ⟨sf, t3 ++ [progAt sf vid]⟩
      | none =>
        let s4 := runStageSave s3 vid 1
        let v3 := { v2 with progress := 50 }
        let s5 := mset store0 vid v3
        let t5 := t3 ++ [progAt s4 vid, progAt s5 vid]
        match oracle 2 with
        | some msg => let sf := markVideoFailed s5 vid msg; ⟨sf, t5 ++ [progAt sf vid]⟩
        | none =>
          let s6 := runStageSave s5 vid 2
          let v4 := { v3 with progress := 80 }
          let s7 := mset store0 vid v4
          let t7 := t5 ++ [progAt s6 vid, progAt s7 vid]
          match oracle 3 with
          | some msg => let sf := markVideoFailed s7 vid msg; ⟨sf, t7 ++ [progAt sf vid]⟩
          | none =>
            let s8 := runStageSave s7 vid 3
            let v5 := { v4 with progress := 95 }
            let s9 := mset store0 vid v5
            let t9 := t7 ++ [progAt s8 vid, progAt s9 vid]
            match oracle 4 with
            | some msg => let sf := markVideoFailed s9 vid msg; ⟨sf, t9 ++ [progAt sf vid]⟩
            | none =>
              let s10 := runStageSave s9 vid 4
              let v6 := { v5 with status := "completed", progress := 100 }
              let s11 := mset store0 vid v6
              ⟨s11, t9 ++ [progAt s10 vid, progAt s11 vid]⟩

/-- The persisted progress milestone in force while stage `i` runs. -/
def stageMilestone : Nat → Nat
  | 0 => 10
  | 1 => 30
  | 2 => 50
  | 3 => 80
  | _ => 95

/-- C5: on a run with no failing stage the persisted progress trace is
exactly 10,10,30,30,50,50,80,80,95,95,100 (one entry per save; the stage
helpers re-save the store without touching progress), hence non-decreasing
with distinct milestones 10,30,50,80,95,100 in order, and the final
persisted record has status `"completed"` and progress 100. -/
theorem processVideo_success (store0 : List (String × VideoRecord)) (vid : String)
    (oracle : Nat → Option String) (v0 : VideoRecord)
    (hv : mget store0 vid = some v0) (hok : ∀ i, i < 5 → oracle i = none) :
    mget (processVideo store0 vid oracle).store vid =
      some { v0 with status := "completed", progress := 100 } ∧
    (processVideo store0 vid oracle).trace = [10, 10, 30, 30, 50, 50, 80, 80, 95, 95, 100] ∧
    (processVideo store0 vid oracle).trace.Chain' (· ≤ ·) ∧
    (processVideo store0 vid oracle).trace.dedup = [10, 30, 50, 80, 95, 100] := by
  have h0 := hok 0 (by omega)
  have h1 := hok 1 (by omega)
  have h2 := hok 2 (by omega)
  have h3 := hok 3 (by omega)
  have h4 := hok 4 (by omega)
  have hrun : processVideo store0 vid oracle =
      ⟨mset store0 vid { v0 with status := "completed", progress := 100 },
        [10, 10, 30, 30, 50, 50, 80, 80, 95, 95, 100]⟩ := by
    simp only [processVideo, hv, h0, h1, h2, h3, h4, progAt, runStageSave,
      mget_mset_self, stageWrite]
    rfl
  have hstore : (processVideo store0 vid oracle).store =
      mset store0 vid { v0 with status := "completed", progress := 100 } := by
    rw [hrun]
  have htrace : (processVideo store0 vid oracle).trace =
      [10, 10, 30, 30, 50, 50, 80, 80, 95, 95, 100] := by
    rw [hrun]
  refine ⟨?_, htrace, ?_, ?_⟩
  · rw [hstore]; exact mget_mset_self _ _ _
  · rw [htrace]; simp [List.chain'_cons]
  · rw [htrace]; decide

theorem processVideo_success_witness :
    mget (processVideo [("vid1", ⟨"u1", "pending", 0, "T", "D", none, none, none,
        none, none, none, none, none⟩)] "vid1" (fun _ => none)).store "vid1" =
      some ⟨"u1", "completed", 100, "T", "D", none, none, none,
        none, none, none, none, none⟩ ∧
    (processVideo [("vid1", ⟨"u1", "pending", 0, "T", "D", none, none, none,
        none, none, none, none, none⟩)] "vid1" (fun _ => none)).trace =
      [10, 10, 30, 30, 50, 50, 80, 80, 95, 95, 100] ∧
    (processVideo [("vid1", ⟨"u1", "pending", 0, "T", "D", none, none, none,
        none, none, none, none, none⟩)] "vid1" (fun _ => none)).trace.Chain' (· ≤ ·) ∧
    (processVideo [("vid1", ⟨"u1", "pending", 0, "T", "D", none, none, none,
        none, none, none, none, none⟩)] "vid1" (fun _ => none)).trace.dedup =
      [10, 30, 50, 80, 95, 100] :=
  processVideo_success
    [("vid1", ⟨"u1", "pending", 0, "T", "D", none, none, none,
      none, none, none, none, none⟩)] "vid1" (fun _ => none)
    ⟨"u1", "pending", 0, "T", "D", none, none, none, none, none, none, none, none⟩
    rfl (fun _ _ => rfl)

/-- C6: if the first failing stage is stage `i`, the run stops there: the
final persisted record is the record as of the milestone before stage `i`,
marked `status = "failed"` with `error_message` the exception's message —
no later stage or retry ever raises the progress past `stageMilestone i`. -/
theorem processVideo_failure (store0 : List (String × VideoRecord)) (vid : String)
    (oracle : Nat → Option String) (v0 : VideoRecord) (i : Nat) (msg : String)
    (hv : mget store0 vid = some v0) (hi : i < 5)
    (hprev : ∀ j, j < i → oracle j = none) (hfail : oracle i = some msg) :
    mget (processVideo store0 vid oracle).store vid =
      some { v0 with status := "failed", progress := stageMilestone i,
                     error_message := some msg } ∧
    stageMilestone i < 100 := by
  interval_cases i
  · refine ⟨?_, by decide⟩
    simp only [processVideo, hv, hfail, markVideoFailed, progAt, mget_mset_self,
      stageMilestone]
  · have h0 := hprev 0 (by omega)
    refine ⟨?_, by decide⟩
    simp only [processVideo, hv, h0, hfail, markVideoFailed, progAt, runStageSave,
      mget_mset_self, stageMilestone]
  · have h0 := hprev 0 (by omega)
    have h1 := hprev 1 (by omega)
    refine ⟨?_, by decide⟩
    simp only [processVideo, hv, h0, h1, hfail, markVideoFailed, progAt, runStageSave,
      mget_mset_self, stageMilestone]
  · have h0 := hprev 0 (by omega)
    have h1 := hprev 1 (by omega)
    have h2 := hprev 2 (by omega)
    refine ⟨?_, by decide⟩
    simp only [processVideo, hv, h0, h1, h2, hfail, markVideoFailed, progAt, runStageSave,
      mget_mset_self, stageMilestone]
  · have h0 := hprev 0 (by omega)
    have h1 := hprev 1 (by omega)
    have h2 := hprev 2 (by omega)
    have h3 := hprev 3 (by omega)
    refine ⟨?_, by decide⟩
    simp only [processVideo, hv, h0, h1, h2, h3, hfail, markVideoFailed, progAt,
      runStageSave, mget_mset_self, stageMilestone]

theorem processVideo_failure_witness :
    mget (processVideo [("vid2", ⟨"u1", "pending", 0, "T", "D", none, none, none,
        none, none, none, none, none⟩)] "vid2"
        (fun j => if j = 2 then some "boom" else none)).store "vid2" =
      some ⟨"u1", "failed", 50, "T", "D", none, none, some "boom",
        none, none, none, none, none⟩ ∧
    stageMilestone 2 < 100 := by
  have h := processVideo_failure
    [("vid2", ⟨"u1", "pending", 0, "T", "D", none, none, none,
      none, none, none, none, none⟩)] "vid2"
    (fun j => if j = 2 then some "boom" else none)
    ⟨"u1", "pending", 0, "T", "D", none, none, none, none, none, none, none, none⟩
    2 "boom" rfl (by omega) (by intro j hj; interval_cases j <;> rfl) rfl
  exact h

/-- `VideoManager.delete_video`. -/
def deleteVideo (store : List (String × VideoRecord)) (vid uid : String) :
    List (String × VideoRecord) × Bool :=
  match mget store vid with
  | some r => if r.user_id = uid then (mdel store vid, true) else (store, false)
  | none => (store, false)

/-- C9: `delete_video` succeeds exactly when the record exists and is owned
by the requesting user; on success the record is removed and every other
record is untouched, and on failure the store is completely unchanged. -/
theorem deleteVideo_spec (store : List (String × VideoRecord)) (vid uid : String) :
    ((deleteVideo store vid uid).2 = true ↔
      ∃ r, mget store vid = some r ∧ r.user_id = uid) ∧
    ((deleteVideo store vid uid).2 = true →
      mget (deleteVideo store vid uid).1 vid = none ∧
      ∀ w, w ≠ vid → mget (deleteVideo store vid uid).1 w = mget store w) ∧
    ((deleteVideo store vid uid).2 = false → (deleteVideo store vid uid).1 = store) := by
  cases hv : mget store vid with
  | none =>
    have hd : deleteVideo store vid uid = (store, false) := by
      simp [deleteVideo, hv]
    rw [hd]
    refine ⟨⟨fun h => Bool.noConfusion h, ?_⟩, fun h => Bool.noConfusion h, fun _ => rfl⟩
    rintro ⟨r2, hr2, -⟩
    exact Option.noConfusion hr2
  | some r =>
    by_cases hu : r.user_id = uid
    · have hd : deleteVideo store vid uid = (mdel store vid, true) := by
        simp [deleteVideo, hv, hu]
      rw [hd]
      refine ⟨⟨fun _ => ⟨r, rfl, hu⟩, fun _ => rfl⟩,
        fun _ => ⟨mget_mdel_self _ _, ?_⟩, fun h => Bool.noConfusion h⟩
      intro w hw
      exact mget_mdel_ne _ _ _ (fun h => hw h.symm)
    · have hd : deleteVideo store vid uid = (store, false) := by
        simp [deleteVideo, hv, hu]
      rw [hd]
      refine ⟨⟨fun h => Bool.noConfusion h, ?_⟩, fun h => Bool.noConfusion h, fun _ => rfl⟩
      rintro ⟨r2, hr2, hu2⟩
      obtain rfl : r = r2 := Option.some_inj.mp hr2
      exact absurd hu2 hu

end SYA
